import Mathlib

/-!
# ai-manager — verification of the output reconciliation engine

Shallow embedding of the core of the `ai-manager` CLI
(`packages/core/src/{registry,renderer,agents,fs-utils}.ts` and the CLI
entry point).  File paths are modelled as strings with POSIX semantics
(`path.join` of clean segments is concatenation with `/`; the root of an
absolute path is the single leading `/`).  The filesystem is modelled as
an association list from paths to file contents; directories are implicit
(`ensureDir` is a no-op in the model).  Template rendering
(`renderTemplateFile`, i.e. reading a template file and applying
Handlebars) is an external, pure collaborator and is passed in as an
explicit function argument `render : String → Ctx → String` from template
path and context object to output text.
-/

namespace AiManager

/-- Node `path.join` for the clean segments used by the program: plain
concatenation with a `/` separator (no `.`/`..` or duplicate-slash
normalisation is ever needed at the call sites). -/
def pathJoin (a b : String) : String :=
  if a = "" then b else if b = "" then a else String.mk (a.data ++ '/' :: b.data)

/-- Whether the first character of a character list is `/`. -/
def headIsSlash : List Char → Bool
  | [] => false
  | c :: _ => c = '/'

/-- Node `path.isAbsolute` (POSIX): the path starts with `/`. -/
def isAbsolutePath (p : String) : Bool := headIsSlash p.data

/-- `targetPath.slice(parsed.root.length)` for a POSIX absolute path:
drop the single leading `/`. -/
def stripRoot (p : String) : String := String.mk (p.data.drop 1)

/-! ## Data model (`types.ts`) -/

/-- `validation` field of a `Question` (`QuestionSchema`). -/
structure ValidationRule where
  pattern : Option String
  message : Option String
deriving DecidableEq

/-- `QuestionSchema` of `types.ts`. -/
structure Question where
  id : String
  label : String
  type : String
  required : Bool
  options : Option (List String)
  default : Option String
  validation : Option ValidationRule
deriving DecidableEq

/-- `OutputTemplateSchema`: one declared output of a skill or harness. -/
structure OutputTemplate where
  target : String
  template : String
deriving DecidableEq

/-- `SkillManifestSchema`. -/
structure SkillManifest where
  id : String
  name : String
  description : String
  version : String
  questions : List Question
  outputs : List OutputTemplate
  agentsSnippetTemplate : String
  activationRulesTemplate : Option String
deriving DecidableEq

/-- `HarnessManifestSchema`. -/
structure HarnessManifest where
  id : String
  name : String
  version : String
  outputs : List OutputTemplate
deriving DecidableEq

/-- `SkillAnswerMap`: answers recorded for one skill (`Record<string,string>`). -/
abbrev AnswerMap := List (String × String)

/-- `SelectedSkill` of `types.ts`. -/
structure SelectedSkill where
  id : String
  version : String
  answers : AnswerMap
deriving DecidableEq

/-- `SelectedHarness` of `types.ts`. -/
structure SelectedHarness where
  id : String
  version : String
deriving DecidableEq

/-- The optional `facts` record of `ManagerState`. -/
structure Facts where
  packageManager : Option String
  tsconfigPaths : List String
  directories : List String
deriving DecidableEq

/-- `ManagerState`: the persisted record of the last-applied selection. -/
structure ManagerState where
  version : String
  createdAt : String
  updatedAt : String
  projectRoot : String
  facts : Option Facts
  skills : List SelectedSkill
  harnesses : List SelectedHarness
deriving DecidableEq

/-! ## Small list helpers mirroring the JS array operations -/

/-- JS `Array.prototype.includes` on a list of strings. -/
def memB (x : String) : List String → Bool
  | [] => false
  | y :: ys => if y = x then true else memB x ys

/-- `skills.find((skill) => skill.id === skillId)`. -/
def findSkill (skills : List SkillManifest) (skillId : String) : Option SkillManifest :=
  skills.find? (fun m => m.id = skillId)

/-- `harnesses.find((harness) => harness.id === harnessId)`. -/
def findHarness (harnesses : List HarnessManifest) (harnessId : String) :
    Option HarnessManifest :=
  harnesses.find? (fun m => m.id = harnessId)

@[simp] theorem memB_eq_true_iff (x : String) (l : List String) :
    memB x l = true ↔ x ∈ l := by
  induction l with
  | nil => simp [memB]
  | cons y ys ih =>
    simp only [memB, List.mem_cons]
    by_cases h : y = x
    · simp [h]
    · simp only [if_neg h, ih, iff_or_self]
      rintro rfl
      exact absurd rfl h

theorem memB_append (x : String) (l1 l2 : List String) :
    memB x (l1 ++ l2) = (memB x l1 || memB x l2) := by
  induction l1 with
  | nil => simp [memB]
  | cons y ys ih =>
    by_cases h : y = x <;> simp [memB, h, ih]

/-! ## `fs-utils.ts` -/

/-- `BackupOptions` of `fs-utils.ts`. -/
structure BackupOptions where
  enabled : Bool
  backupRoot : Option String
deriving DecidableEq

/-- `resolveBackupPath` of `fs-utils.ts` (lines 9–13): join the backup
root with the target path, stripping only the filesystem root (`/`) from
an absolute target — NOT the project-root prefix. -/
def resolveBackupPath (targetPath backupRoot : String) : String :=
  pathJoin backupRoot (if isAbsolutePath targetPath then stripRoot targetPath else targetPath)

/-- The filesystem: an association list from absolute paths to file
contents (bytes modelled as strings).  Directories are implicit. -/
abbrev FS := List (String × String)

/-- Contents of the file at `p`, if present. -/
def getFile : FS → String → Option String
  | [], _ => none
  | (q, c) :: rest, p => if q = p then some c else getFile rest p

/-- `pathExists` of `fs-utils.ts` on the modelled filesystem. -/
def pathExistsF (fs : FS) (p : String) : Bool := (getFile fs p).isSome

/-- `fs.writeFile`: create or overwrite the file at `p`. -/
def setFile : FS → String → String → FS
  | [], p, c => [(p, c)]
  | (q, d) :: rest, p, c => if q = p then (p, c) :: rest else (q, d) :: setFile rest p c

/-- `fs.rm(path, { force: true })`: delete the file if present, silently
succeed otherwise. -/
def rmFile : FS → String → FS
  | [], _ => []
  | (q, d) :: rest, p => if q = p then rmFile rest p else (q, d) :: rmFile rest p

/-- `writeFileAlways` of `fs-utils.ts` (lines 33–47): if the target
exists and backups are enabled with a backup root, first copy the current
bytes to the resolved backup path; then write the new contents. -/
def writeFileAlways (fs : FS) (targetPath contents : String) (backup : BackupOptions) : FS :=
  let fs1 :=
    match getFile fs targetPath, backup.enabled, backup.backupRoot with
    | some existing, true, some root =>
        setFile fs (resolveBackupPath targetPath root) existing
    | _, _, _ => fs
  setFile fs1 targetPath contents

/-- `backupExistingFile` of `fs-utils.ts` (lines 49–61): copy the current
bytes of an existing file to the resolved backup path; a no-op when
backups are disabled, no backup root is set, or the file is absent. -/
def backupExistingFile (fs : FS) (targetPath : String) (backup : BackupOptions) : FS :=
  match backup.enabled, backup.backupRoot with
  | true, some root =>
      match getFile fs targetPath with
      | none => fs
      | some existing => setFile fs (resolveBackupPath targetPath root) existing
  | _, _ => fs

@[simp] theorem getFile_setFile_same (fs : FS) (p c : String) :
    getFile (setFile fs p c) p = some c := by
  induction fs with
  | nil => simp [setFile, getFile]
  | cons e rest ih =>
    by_cases h : e.1 = p
    · simp [setFile, getFile, h]
    · simp [setFile, getFile, h, ih]

theorem getFile_setFile_other (fs : FS) (p c q : String) (h : p ≠ q) :
    getFile (setFile fs p c) q = getFile fs q := by
  induction fs with
  | nil => simp [setFile, getFile, h]
  | cons e rest ih =>
    by_cases he : e.1 = p
    · simp [setFile, getFile, he, h]
    · simp only [setFile, if_neg he, getFile]
      by_cases hq : e.1 = q <;> simp [hq, ih]

theorem getFile_rmFile (fs : FS) (p q : String) :
    getFile (rmFile fs p) q = if p = q then none else getFile fs q := by
  induction fs with
  | nil => simp [rmFile, getFile]
  | cons e rest ih =>
    obtain ⟨k, c⟩ := e
    by_cases he : k = p
    · by_cases hpq : p = q
      · subst hpq
        simp [rmFile, he, ih]
      · rw [rmFile]
        simp only [if_pos he, ih, if_neg hpq, getFile]
        rw [if_neg (fun h : k = q => hpq (he ▸ h))]
    · rw [rmFile]
      simp only [if_neg he, getFile]
      by_cases hq : k = q
      · have hpq : ¬ p = q := fun h => he (h ▸ hq)
        simp [hq, hpq]
      · simp [if_neg hq, ih]

/-! ## `registry.ts`

`loadSkills`/`loadHarnesses` read every subdirectory's manifest (I/O) and
sort the parsed manifests by id; the raw, directory-order manifest lists
are therefore inputs of the model.  `localeCompare` on ids is modelled by
the codepoint order on strings (a fixed total order).  `manifests.sort`
is modelled by insertion sort. -/

/-- One insertion step of the by-id sort. -/
def insertByKey (key : α → String) (x : α) : List α → List α
  | [] => [x]
  | y :: ys => if key x ≤ key y then x :: y :: ys else y :: insertByKey key x ys

/-- `manifests.sort((a, b) => a.id.localeCompare(b.id))`, as insertion
sort with an explicit key function. -/
def sortByKey (key : α → String) (l : List α) : List α := l.foldr (insertByKey key) []

/-- `Registry` of `registry.ts`. -/
structure Registry where
  skills : List SkillManifest
  harnesses : List HarnessManifest
deriving DecidableEq

/-- The two `ZodError`s thrown by `assertValidRegistryIds`. -/
inductive RegistryError where
  | duplicateSkillIds
  | duplicateHarnessIds
deriving DecidableEq

/-- `assertValidRegistryIds` of `registry.ts` (lines 59–83): fail when
either id list has a duplicate (`new Set(ids).size !== list.length`,
i.e. the id list is not nodup), checking skills first. -/
def assertValidRegistryIds (skills : List SkillManifest) (harnesses : List HarnessManifest) :
    Except RegistryError Unit :=
  if (skills.map (fun s => s.id)).Nodup then
    if (harnesses.map (fun h => h.id)).Nodup then .ok ()
    else .error .duplicateHarnessIds
  else .error .duplicateSkillIds

/-- `loadRegistry` of `registry.ts` (lines 42–49): sort both manifest
lists by id (as `loadSkills`/`loadHarnesses` do), check id uniqueness,
and return the registry — or the validation error, with no partial
registry. -/
def loadRegistry (rawSkills : List SkillManifest) (rawHarnesses : List HarnessManifest) :
    Except RegistryError Registry :=
  let skills := sortByKey (fun s => s.id) rawSkills
  let harnesses := sortByKey (fun h => h.id) rawHarnesses
  match assertValidRegistryIds skills harnesses with
  | .error e => .error e
  | .ok _ => .ok { skills := skills, harnesses := harnesses }

theorem perm_insertByKey (key : α → String) (x : α) (l : List α) :
    List.Perm (insertByKey key x l) (x :: l) := by
  induction l with
  | nil => simp [insertByKey]
  | cons y ys ih =>
    rw [insertByKey]
    by_cases h : key x ≤ key y
    · simp [h]
    · simp only [if_neg h]
      exact List.Perm.trans (List.Perm.cons y ih) (List.Perm.swap x y ys)

theorem perm_sortByKey (key : α → String) (l : List α) :
    List.Perm (sortByKey key l) l := by
  induction l with
  | nil => simp [sortByKey]
  | cons x xs ih =>
    exact List.Perm.trans (perm_insertByKey key x (sortByKey key xs)) (List.Perm.cons x ih)

theorem sorted_insertByKey (key : α → String) (x : α) (l : List α)
    (h : List.Pairwise (fun a b => key a ≤ key b) l) :
    List.Pairwise (fun a b => key a ≤ key b) (insertByKey key x l) := by
  induction l with
  | nil => simp [insertByKey]
  | cons y ys ih =>
    rw [insertByKey]
    rcases h with - | ⟨hy, hys⟩
    by_cases hxy : key x ≤ key y
    · rw [if_pos hxy]
      refine List.Pairwise.cons ?_ (List.Pairwise.cons hy hys)
      intro b hb
      rw [List.mem_cons] at hb
      rcases hb with hb | hb
      · exact hb ▸ hxy
      · exact le_trans hxy (hy b hb)
    · rw [if_neg hxy]
      refine List.Pairwise.cons ?_ (ih hys)
      intro b hb
      have hb' := (perm_insertByKey key x ys).mem_iff.mp hb
      rw [List.mem_cons] at hb'
      rcases hb' with hb' | hb'
      · exact hb' ▸ le_of_not_le hxy
      · exact hy b hb'

theorem sorted_sortByKey (key : α → String) (l : List α) :
    List.Pairwise (fun a b => key a ≤ key b) (sortByKey key l) := by
  induction l with
  | nil => simp [sortByKey]
  | cons x xs ih => exact sorted_insertByKey key x (sortByKey key xs) ih

/-! ## `agents.ts` — document assembly -/

/-- The context object handed to the top-level base template
(`templateContext` in `buildAgentsMarkdown`). -/
structure AgentsTemplateContext where
  projectName : String
  harnessNotes : String
  planSection : String
  skillIndexTable : String
  skillGuides : String
  activationRules : String
deriving DecidableEq

/-- The context objects the program passes to Handlebars templates. -/
inductive Ctx where
  /-- `{ skill, answers }` for a skill output or agents snippet. -/
  | skill (manifest : SkillManifest) (answers : AnswerMap)
  /-- `{ harness }` for a harness output. -/
  | harness (manifest : HarnessManifest)
  /-- `{ content }` for the generated-agents wrapper template. -/
  | content (text : String)
  /-- The top-level context for `agents.base.md.hbs`. -/
  | base (c : AgentsTemplateContext)
deriving DecidableEq

/-- `[...].join(sep)` on a list of strings. -/
def joinStrings (sep : String) : List String → String
  | [] => ""
  | [a] => a
  | a :: rest => a ++ sep ++ joinStrings sep rest

/-- `AgentsAssemblyInput` of `agents.ts` (`skillAnswers` as an
association list; later entries win, as in `Object.fromEntries`). -/
structure AgentsAssemblyInput where
  projectName : String
  harnesses : List String
  skills : List SkillManifest
  selectedSkillIds : List String
  skillAnswers : List (String × AnswerMap)
  registryRoot : String
deriving DecidableEq

/-- `input.skillAnswers[skill.id] ?? {}` where `skillAnswers` came from
`Object.fromEntries` (the last entry for a key wins). -/
def lookupAnswers (m : List (String × AnswerMap)) (q : String) : AnswerMap :=
  match m.reverse.find? (fun e => e.1 = q) with
  | some e => e.2
  | none => []

/-- `buildSkillIndexTable` of `agents.ts` (lines 14–20). -/
def buildSkillIndexTable (skills : List SkillManifest) : String :=
  match skills with
  | [] => "No skills selected."
  | _ =>
    joinStrings "\n"
      ("| Id | Name | Description |" :: "| --- | --- | --- |" ::
        skills.map (fun s => "| " ++ s.id ++ " | " ++ s.name ++ " | " ++ s.description ++ " |"))

/-- Template path of a skill's agents snippet
(`path.join(registryRoot, "skills", skill.id, skill.agentsSnippetTemplate)`). -/
def snippetTemplatePath (registryRoot : String) (s : SkillManifest) : String :=
  pathJoin (pathJoin (pathJoin registryRoot "skills") s.id) s.agentsSnippetTemplate

/-- Template path of a skill's activation-rules template. -/
def activationTemplatePath (registryRoot : String) (s : SkillManifest) : String :=
  pathJoin (pathJoin (pathJoin registryRoot "skills") s.id)
    (s.activationRulesTemplate.getD "")

/-- The `templateContext` assembled by `buildAgentsMarkdown` of
`agents.ts` (lines 22–82), with `render` the pure template renderer. -/
def buildAgentsContext (render : String → Ctx → String) (input : AgentsAssemblyInput) :
    AgentsTemplateContext :=
  let selectedSkills := input.skills.filter (fun sk => memB sk.id input.selectedSkillIds)
  let plannerSkill := selectedSkills.find? (fun sk => sk.id = "planner")
  let guideSkills := selectedSkills.filter (fun sk => ¬ sk.id = "planner")
  let snippets := guideSkills.map (fun sk =>
    render (snippetTemplatePath input.registryRoot sk)
      (Ctx.skill sk (lookupAnswers input.skillAnswers sk.id)))
  let activation := (selectedSkills.filter (fun sk => sk.activationRulesTemplate.isSome)).map
    (fun sk =>
      render (activationTemplatePath input.registryRoot sk)
        (Ctx.skill sk (lookupAnswers input.skillAnswers sk.id)))
  let planSection :=
    match plannerSkill with
    | none => ""
    | some sk => render (snippetTemplatePath input.registryRoot sk) (Ctx.skill sk [])
  { projectName := input.projectName
    harnessNotes :=
      match input.harnesses with
      | [] => "- None"
      | hs => joinStrings "\n" (hs.map (fun h => "- " ++ h))
    planSection := planSection
    skillIndexTable := buildSkillIndexTable selectedSkills
    skillGuides := joinStrings "\n\n" snippets
    activationRules := joinStrings "\n\n" activation }

/-- `buildAgentsMarkdown` of `agents.ts`: render the base template with
the assembled context. -/
def buildAgentsMarkdown (render : String → Ctx → String) (input : AgentsAssemblyInput) :
    String :=
  render (pathJoin (pathJoin input.registryRoot "templates") "agents.base.md.hbs")
    (Ctx.base (buildAgentsContext render input))

/-! ## CLI core (`index.ts` of the CLI package) -/

/-- `new Set()` insertion: append unless already present. -/
def setAdd (l : List String) (x : String) : List String :=
  if memB x l then l else l ++ [x]

/-- `manifest.outputs.forEach((output) => targets.add(output.target))`. -/
def addOutputs (acc : List String) (outputs : List OutputTemplate) : List String :=
  outputs.foldl (fun a o => setAdd a o.target) acc

/-- `collectOutputTargets` (CLI entry, lines 219–239): the union of the
declared `output.target`s of the selected skills' and harnesses'
manifests (ids without a manifest are skipped), plus the two
always-present targets.  A pure, total function of the manifests and the
selected ids — the filesystem is not an input. -/
def collectOutputTargets (skills : List SkillManifest) (harnesses : List HarnessManifest)
    (skillIds harnessIds : List String) : List String :=
  let t1 := skillIds.foldl (fun acc skillId =>
    match findSkill skills skillId with
    | none => acc
    | some m => addOutputs acc m.outputs) []
  let t2 := harnessIds.foldl (fun acc harnessId =>
    match findHarness harnesses harnessId with
    | none => acc
    | some m => addOutputs acc m.outputs) t1
  setAdd (setAdd t2 "ai/agents.md") "ai/ai-manager.json"

/-- `Array.from(previousTargets).filter((target) => !nextTargets.has(target))`
(CLI entry, lines 614–616 and 697–699). -/
def staleTargets (prev next : List String) : List String :=
  prev.filter (fun t => !(memB t next))

/-- `removeStaleOutputs` (CLI entry, lines 241–251): for each stale
target, back up the file at `path.join(projectRoot, target)` if backups
are enabled, then delete it (`force: true`, so an absent file is a
no-op). -/
def removeStaleOutputs (fs : FS) (projectRoot : String) (stale : List String)
    (backup : BackupOptions) : FS :=
  stale.foldl (fun f target =>
    rmFile (backupExistingFile f (pathJoin projectRoot target) backup)
      (pathJoin projectRoot target)) fs

/-- `buildBackupOptions` (CLI entry, lines 300–307); `ts` is
`new Date().toISOString()`, whose `:` and `.` characters are replaced by
`-`. -/
def buildBackupOptions (projectRoot : String) (enableBackup : Bool) (ts : String) :
    BackupOptions :=
  if !enableBackup then { enabled := false, backupRoot := none }
  else
    { enabled := true
      backupRoot := some (pathJoin (pathJoin (pathJoin projectRoot "ai") ".backups")
        (String.mk (ts.data.map (fun c => if c = ':' ∨ c = '.' then '-' else c)))) }

/-- `path.basename(projectRoot)`. -/
def baseName (p : String) : String := (p.splitOn "/").getLastD p

/-- `renderAll` (CLI entry, lines 406–478) as the ordered list of
`(absolute target path, rendered contents)` writes it performs: first
the aggregate agents document, then every output of every selected skill
whose manifest exists (with `{skill, answers}` context), then every
output of every selected harness whose manifest exists (with `{harness}`
context). -/
def renderAll (render : String → Ctx → String) (projectRoot registryRoot : String)
    (skills : List SkillManifest) (harnesses : List HarnessManifest)
    (selectedSkills : List SelectedSkill) (selectedHarnesses : List SelectedHarness) :
    List (String × String) :=
  let agentsContents := buildAgentsMarkdown render
    { projectName := baseName projectRoot
      harnesses := selectedHarnesses.map (fun h => h.id)
      skills := skills
      selectedSkillIds := selectedSkills.map (fun s => s.id)
      skillAnswers := selectedSkills.map (fun s => (s.id, s.answers))
      registryRoot := registryRoot }
  let agentsWrite := (pathJoin projectRoot "ai/agents.md",
    render (pathJoin registryRoot "templates/agents.generated.md.hbs")
      (Ctx.content agentsContents))
  let skillWrites := (selectedSkills.map (fun sel =>
    match findSkill skills sel.id with
    | none => []
    | some m => m.outputs.map (fun o =>
        (pathJoin projectRoot o.target,
         render (pathJoin (pathJoin (pathJoin registryRoot "skills") m.id) o.template)
           (Ctx.skill m sel.answers))))).flatten
  let harnessWrites := (selectedHarnesses.map (fun sel =>
    match findHarness harnesses sel.id with
    | none => []
    | some m => m.outputs.map (fun o =>
        (pathJoin projectRoot o.target,
         render (pathJoin (pathJoin (pathJoin registryRoot "harnesses") m.id) o.template)
           (Ctx.harness m))))).flatten
  agentsWrite :: skillWrites ++ harnessWrites

/-- The result of one reconciliation run. -/
structure ReconcileResult where
  writes : List (String × String)
  removals : List String
  nextState : ManagerState
deriving DecidableEq

/-- The shared reconciliation core of `runSkillsAddRemove` (CLI entry,
lines 589–634) and `runHarnessesAddRemove` (lines 672–717), with the
desired selection already computed (`updatedSkills`/`updatedHarnesses`):
previous targets come from the persisted state, next targets from the
desired selection; the stale difference is removed (on the `add` action
the code skips this step, and indeed the difference is empty there);
everything is re-rendered; the next state keeps `createdAt` and replaces
`updatedAt` and the selection lists. -/
def applySelection (render : String → Ctx → String) (reg : Registry)
    (projectRoot registryRoot : String) (state : ManagerState)
    (dSkills : List SelectedSkill) (dHarnesses : List SelectedHarness) (now : String) :
    ReconcileResult :=
  let prev := collectOutputTargets reg.skills reg.harnesses
    (state.skills.map (fun s => s.id)) (state.harnesses.map (fun h => h.id))
  let next := collectOutputTargets reg.skills reg.harnesses
    (dSkills.map (fun s => s.id)) (dHarnesses.map (fun h => h.id))
  { writes := renderAll render projectRoot registryRoot reg.skills reg.harnesses
      dSkills dHarnesses
    removals := staleTargets prev next
    nextState := { state with updatedAt := now, skills := dSkills, harnesses := dHarnesses } }

/-! ## `init` (CLI entry) -/

/-- `isInited` (CLI entry, lines 207–213): both `ai/agents.md` and
`ai/ai-manager.json` exist under the project root. -/
def isInitedF (fs : FS) (projectRoot : String) : Bool :=
  pathExistsF fs (pathJoin (pathJoin projectRoot "ai") "agents.md") &&
    pathExistsF fs (pathJoin (pathJoin projectRoot "ai") "ai-manager.json")

/-- `selectedHarnessIds.map((id) => ({ id, version: registry.harnesses
.find(...)?.version ?? "unknown" }))` from `runInit`. -/
def mkSelectedHarnesses (harnesses : List HarnessManifest) (ids : List String) :
    List SelectedHarness :=
  ids.map (fun harnessId =>
    { id := harnessId
      version := match findHarness harnesses harnessId with
        | some m => m.version
        | none => "unknown" })

/-- The fresh `ManagerState` built by `runInit` (CLI entry, lines
526–538): `createdAt` and `updatedAt` both set to the current time. -/
def initialState (projectRoot now : String) (facts : Option Facts)
    (skills : List SelectedSkill) (harnesses : List SelectedHarness) : ManagerState :=
  { version := "0.1.0"
    createdAt := now
    updatedAt := now
    projectRoot := projectRoot
    facts := facts
    skills := skills
    harnesses := harnesses }

/-- `runInit` (CLI entry, lines 490–553) as a filesystem transition:
render and write every output of the selection, then write the fresh
state to `ai/ai-manager.json` (interactive selection and answers are
inputs; `encodeState` is the canonical JSON serialisation of the
state). -/
def runInitF (render : String → Ctx → String) (encodeState : ManagerState → String)
    (reg : Registry) (projectRoot registryRoot : String)
    (selectedSkills : List SelectedSkill) (selectedHarnessIds : List String)
    (facts : Option Facts) (now ts : String) (enableBackup : Bool) (fs : FS) : FS :=
  let backup := buildBackupOptions projectRoot enableBackup ts
  let selHarn := mkSelectedHarnesses reg.harnesses selectedHarnessIds
  let writes := renderAll render projectRoot registryRoot reg.skills reg.harnesses
    selectedSkills selHarn
  let fs1 := writes.foldl (fun f w => writeFileAlways f w.1 w.2 backup) fs
  writeFileAlways fs1 (pathJoin (pathJoin projectRoot "ai") "ai-manager.json")
    (encodeState (initialState projectRoot now facts selectedSkills selHarn)) backup

/-- The `init` command action (CLI entry, lines 796–808): refuse with no
filesystem change when `isInited` reports both marker files present,
otherwise run `runInit`.  The second component records whether the init
proceeded. -/
def initCommand (render : String → Ctx → String) (encodeState : ManagerState → String)
    (reg : Registry) (projectRoot registryRoot : String)
    (selectedSkills : List SelectedSkill) (selectedHarnessIds : List String)
    (facts : Option Facts) (now ts : String) (enableBackup : Bool) (fs : FS) :
    FS × Bool :=
  if isInitedF fs projectRoot then (fs, false)
  else (runInitF render encodeState reg projectRoot registryRoot selectedSkills
    selectedHarnessIds facts now ts enableBackup fs, true)

/-! ## Membership in the computed target set -/

theorem mem_setAdd (y x : String) (l : List String) :
    y ∈ setAdd l x ↔ y ∈ l ∨ y = x := by
  unfold setAdd
  by_cases h : memB x l
  · rw [if_pos h]
    have hx : x ∈ l := (memB_eq_true_iff x l).mp h
    constructor
    · exact Or.inl
    · rintro (hy | rfl)
      · exact hy
      · exact hx
  · rw [if_neg h]
    simp

theorem mem_addOutputs (y : String) (acc : List String) (os : List OutputTemplate) :
    y ∈ addOutputs acc os ↔ y ∈ acc ∨ ∃ o ∈ os, o.target = y := by
  induction os generalizing acc with
  | nil => simp [addOutputs]
  | cons o rest ih =>
    simp only [addOutputs] at ih ⊢
    simp only [List.foldl_cons, ih, mem_setAdd, List.mem_cons]
    constructor
    · rintro ((hy | rfl) | ⟨o', ho', rfl⟩)
      · exact Or.inl hy
      · exact Or.inr ⟨o, Or.inl rfl, rfl⟩
      · exact Or.inr ⟨o', Or.inr ho', rfl⟩
    · rintro (hy | ⟨o', (rfl | ho'), rfl⟩)
      · exact Or.inl (Or.inl hy)
      · exact Or.inl (Or.inr rfl)
      · exact Or.inr ⟨o', ho', rfl⟩

theorem mem_skillTargetsFold (y : String) (skills : List SkillManifest)
    (skillIds : List String) (acc : List String) :
    y ∈ skillIds.foldl (fun acc skillId =>
      match findSkill skills skillId with
      | none => acc
      | some m => addOutputs acc m.outputs) acc ↔
    y ∈ acc ∨ ∃ skillId ∈ skillIds, ∃ m, findSkill skills skillId = some m ∧
      ∃ o ∈ m.outputs, o.target = y := by
  induction skillIds generalizing acc with
  | nil => simp
  | cons i rest ih =>
    rw [List.foldl_cons]
    cases hf : findSkill skills i with
    | none =>
      simp only [hf, ih, List.mem_cons]
      constructor
      · rintro (hy | ⟨j, hj, m, hm, ho⟩)
        · exact Or.inl hy
        · exact Or.inr ⟨j, Or.inr hj, m, hm, ho⟩
      · rintro (hy | ⟨j, (rfl | hj), m, hm, ho⟩)
        · exact Or.inl hy
        · rw [hf] at hm; cases hm
        · exact Or.inr ⟨j, hj, m, hm, ho⟩
    | some m =>
      simp only [hf, ih, mem_addOutputs, List.mem_cons]
      constructor
      · rintro ((hy | ho) | ⟨j, hj, m', hm', ho'⟩)
        · exact Or.inl hy
        · exact Or.inr ⟨i, Or.inl rfl, m, hf, ho⟩
        · exact Or.inr ⟨j, Or.inr hj, m', hm', ho'⟩
      · rintro (hy | ⟨j, (rfl | hj), m', hm', ho'⟩)
        · exact Or.inl (Or.inl hy)
        · rw [hf] at hm'; cases hm'; exact Or.inl (Or.inr ho')
        · exact Or.inr ⟨j, hj, m', hm', ho'⟩

theorem mem_harnessTargetsFold (y : String) (harnesses : List HarnessManifest)
    (harnessIds : List String) (acc : List String) :
    y ∈ harnessIds.foldl (fun acc harnessId =>
      match findHarness harnesses harnessId with
      | none => acc
      | some m => addOutputs acc m.outputs) acc ↔
    y ∈ acc ∨ ∃ harnessId ∈ harnessIds, ∃ m, findHarness harnesses harnessId = some m ∧
      ∃ o ∈ m.outputs, o.target = y := by
  induction harnessIds generalizing acc with
  | nil => simp
  | cons i rest ih =>
    rw [List.foldl_cons]
    cases hf : findHarness harnesses i with
    | none =>
      simp only [hf, ih, List.mem_cons]
      constructor
      · rintro (hy | ⟨j, hj, m, hm, ho⟩)
        · exact Or.inl hy
        · exact Or.inr ⟨j, Or.inr hj, m, hm, ho⟩
      · rintro (hy | ⟨j, (rfl | hj), m, hm, ho⟩)
        · exact Or.inl hy
        · rw [hf] at hm; cases hm
        · exact Or.inr ⟨j, hj, m, hm, ho⟩
    | some m =>
      simp only [hf, ih, mem_addOutputs, List.mem_cons]
      constructor
      · rintro ((hy | ho) | ⟨j, hj, m', hm', ho'⟩)
        · exact Or.inl hy
        · exact Or.inr ⟨i, Or.inl rfl, m, hf, ho⟩
        · exact Or.inr ⟨j, Or.inr hj, m', hm', ho'⟩
      · rintro (hy | ⟨j, (rfl | hj), m', hm', ho'⟩)
        · exact Or.inl (Or.inl hy)
        · rw [hf] at hm'; cases hm'; exact Or.inl (Or.inr ho')
        · exact Or.inr ⟨j, hj, m', hm', ho'⟩

/-- Membership in `collectOutputTargets`: exactly the declared targets
of selected manifests plus the two always-present files. -/
theorem mem_collectOutputTargets (y : String) (skills : List SkillManifest)
    (harnesses : List HarnessManifest) (skillIds harnessIds : List String) :
    y ∈ collectOutputTargets skills harnesses skillIds harnessIds ↔
    (∃ skillId ∈ skillIds, ∃ m, findSkill skills skillId = some m ∧
        ∃ o ∈ m.outputs, o.target = y) ∨
    (∃ harnessId ∈ harnessIds, ∃ m, findHarness harnesses harnessId = some m ∧
        ∃ o ∈ m.outputs, o.target = y) ∨
    y = "ai/agents.md" ∨ y = "ai/ai-manager.json" := by
  unfold collectOutputTargets
  rw [mem_setAdd, mem_setAdd, mem_harnessTargetsFold, mem_skillTargetsFold]
  simp only [List.not_mem_nil, false_or, or_assoc]

theorem agents_mem_collectOutputTargets (skills : List SkillManifest)
    (harnesses : List HarnessManifest) (skillIds harnessIds : List String) :
    "ai/agents.md" ∈ collectOutputTargets skills harnesses skillIds harnessIds ∧
    "ai/ai-manager.json" ∈ collectOutputTargets skills harnesses skillIds harnessIds := by
  constructor <;> rw [mem_collectOutputTargets] <;> tauto

theorem mem_staleTargets (y : String) (prev next : List String) :
    y ∈ staleTargets prev next ↔ y ∈ prev ∧ ¬ y ∈ next := by
  unfold staleTargets
  rw [List.mem_filter]
  constructor
  · rintro ⟨h1, h2⟩
    refine ⟨h1, fun hy => ?_⟩
    rw [(memB_eq_true_iff y next).mpr hy] at h2
    simp at h2
  · rintro ⟨h1, h2⟩
    refine ⟨h1, ?_⟩
    cases hm : memB y next
    · simp
    · exact absurd ((memB_eq_true_iff y next).mp hm) h2

/-! ## File-level facts about removal -/

theorem getFile_backupExistingFile_ne_none (fs : FS) (t : String) (b : BackupOptions)
    (p : String) (hp : getFile fs p ≠ none) :
    getFile (backupExistingFile fs t b) p ≠ none := by
  obtain ⟨en, br⟩ := b
  unfold backupExistingFile
  cases en
  · exact hp
  · cases br
    · exact hp
    case some root =>
      cases hg : getFile fs t
      · simp only [hg]
        exact hp
      case some existing =>
        simp only [hg]
        by_cases hb : resolveBackupPath t root = p
        · subst hb
          rw [getFile_setFile_same]
          simp
        · rw [getFile_setFile_other fs (resolveBackupPath t root) existing p hb]
          exact hp

/-- Only paths obtained by joining the project root with a stale target
can go from present to absent across `removeStaleOutputs`. -/
theorem removeStaleOutputs_deletes_only (fs : FS) (projectRoot : String)
    (stale : List String) (backup : BackupOptions) (p : String)
    (hp : getFile fs p ≠ none)
    (hq : getFile (removeStaleOutputs fs projectRoot stale backup) p = none) :
    p ∈ stale.map (pathJoin projectRoot) := by
  induction stale generalizing fs with
  | nil => exact absurd hq hp
  | cons t rest ih =>
    rw [removeStaleOutputs, List.foldl_cons] at hq
    by_cases hj : pathJoin projectRoot t = p
    · exact List.mem_map.mpr ⟨t, List.mem_cons_self t rest, hj⟩
    · rw [List.map_cons, List.mem_cons]
      refine Or.inr (ih _ ?_ hq)
      rw [getFile_rmFile, if_neg hj]
      exact getFile_backupExistingFile_ne_none fs (pathJoin projectRoot t) backup p hp

/-! ## Concrete fixtures used by witnesses and counterexamples -/

/-- A minimal skill manifest with a given id and a single declared
output target. -/
def mkSkill (skillId target : String) : SkillManifest :=
  { id := skillId
    name := "N"
    description := "D"
    version := "1"
    questions := []
    outputs := [{ target := target, template := "out.md.hbs" }]
    agentsSnippetTemplate := "snippet.md.hbs"
    activationRulesTemplate := none }

/-- A minimal harness manifest with a given id and a single declared
output target. -/
def mkHarness (harnessId target : String) : HarnessManifest :=
  { id := harnessId
    name := "H"
    version := "1"
    outputs := [{ target := target, template := "rules.hbs" }] }

/-- A registry with one skill `s1` (target `ai/skills/s1-skill.md`). -/
def sampleRegistry : Registry :=
  { skills := [mkSkill "s1" "ai/skills/s1-skill.md"], harnesses := [] }

/-- A persisted state with skill `s1` selected. -/
def sampleState : ManagerState :=
  { version := "0.1.0"
    createdAt := "2024-01-01T00:00:00.000Z"
    updatedAt := "2024-01-01T00:00:00.000Z"
    projectRoot := "/p"
    facts := none
    skills := [{ id := "s1", version := "1", answers := [] }]
    harnesses := [] }

/-- A template renderer that returns the empty string everywhere. -/
def constRender : String → Ctx → String := fun _ _ => ""

/-! ## Claim theorems -/

/-- **C1** — Delta correctness of reconciliation: for every persisted
selection (in `state`) and desired selection, the stale set the
reconciliation removes consists exactly of the target paths of the
previous selection that are not target paths of the desired selection;
both sets are computed by `collectOutputTargets` from the declared
manifest outputs (the filesystem is not an input of that function), and
`removeStaleOutputs` can delete a file only at a stale path joined with
the project root — no other operation of the run deletes anything. -/
theorem delta_correctness (render : String → Ctx → String) (reg : Registry)
    (projectRoot registryRoot : String) (state : ManagerState)
    (dSkills : List SelectedSkill) (dHarnesses : List SelectedHarness) (now : String) :
    (∀ t, t ∈ (applySelection render reg projectRoot registryRoot state
        dSkills dHarnesses now).removals ↔
      t ∈ collectOutputTargets reg.skills reg.harnesses
          (state.skills.map (fun s => s.id)) (state.harnesses.map (fun h => h.id)) ∧
      ¬ t ∈ collectOutputTargets reg.skills reg.harnesses
          (dSkills.map (fun s => s.id)) (dHarnesses.map (fun h => h.id))) ∧
    (∀ (fs : FS) (backup : BackupOptions) (p : String),
      getFile fs p ≠ none →
      getFile (removeStaleOutputs fs projectRoot
        (applySelection render reg projectRoot registryRoot state
          dSkills dHarnesses now).removals backup) p = none →
      p ∈ ((applySelection render reg projectRoot registryRoot state
        dSkills dHarnesses now).removals).map (pathJoin projectRoot)) := by
  constructor
  · intro t
    exact mem_staleTargets t _ _
  · intro fs backup p hp hq
    exact removeStaleOutputs_deletes_only fs projectRoot _ backup p hp hq

/-- **C1 witness** — at a concrete registry and transition: removing the
only selected skill marks exactly its declared target stale, and a file
deleted by `removeStaleOutputs` is at a stale path joined with the
project root. -/
theorem delta_correctness_witness :
    ("ai/skills/s1-skill.md" ∈
        (applySelection constRender sampleRegistry "/p" "/r" sampleState [] [] "now").removals ∧
      ¬ "ai/agents.md" ∈
        (applySelection constRender sampleRegistry "/p" "/r" sampleState [] [] "now").removals) ∧
    "/p/ai/skills/s1-skill.md" ∈
      ((applySelection constRender sampleRegistry "/p" "/r" sampleState [] []
        "now").removals).map (pathJoin "/p") := by
  refine ⟨⟨?_, ?_⟩, ?_⟩
  · decide
  · decide
  · exact (delta_correctness constRender sampleRegistry "/p" "/r" sampleState [] [] "now").2
      [("/p/ai/skills/s1-skill.md", "old")] { enabled := false, backupRoot := none }
      "/p/ai/skills/s1-skill.md" (by decide) (by decide)

theorem staleTargets_self (l : List String) : staleTargets l l = [] := by
  unfold staleTargets
  rw [List.filter_eq_nil_iff]
  intro a ha
  rw [(memB_eq_true_iff a l).mpr ha]
  simp

/-- **C3** — Idempotence: running the reconciliation (render-all plus
state write) a second time, from the state persisted by the first run,
with the same desired skills, harnesses and answers, produces exactly
the same list of `(path, contents)` writes (hence byte-identical
contents for every generated file), computes the same target file set,
removes nothing, and persists a state that differs from the first run's
state only in `updatedAt`. -/
theorem reconcile_idempotent (render : String → Ctx → String) (reg : Registry)
    (projectRoot registryRoot : String) (state : ManagerState)
    (dSkills : List SelectedSkill) (dHarnesses : List SelectedHarness) (t1 t2 : String) :
    (applySelection render reg projectRoot registryRoot
        (applySelection render reg projectRoot registryRoot state dSkills dHarnesses
          t1).nextState dSkills dHarnesses t2).writes =
      (applySelection render reg projectRoot registryRoot state dSkills dHarnesses
        t1).writes ∧
    (applySelection render reg projectRoot registryRoot
        (applySelection render reg projectRoot registryRoot state dSkills dHarnesses
          t1).nextState dSkills dHarnesses t2).removals = [] ∧
    collectOutputTargets reg.skills reg.harnesses
        ((applySelection render reg projectRoot registryRoot
          (applySelection render reg projectRoot registryRoot state dSkills dHarnesses
            t1).nextState dSkills dHarnesses t2).nextState.skills.map (fun s => s.id))
        ((applySelection render reg projectRoot registryRoot
          (applySelection render reg projectRoot registryRoot state dSkills dHarnesses
            t1).nextState dSkills dHarnesses t2).nextState.harnesses.map (fun h => h.id)) =
      collectOutputTargets reg.skills reg.harnesses
        ((applySelection render reg projectRoot registryRoot state dSkills dHarnesses
          t1).nextState.skills.map (fun s => s.id))
        ((applySelection render reg projectRoot registryRoot state dSkills dHarnesses
          t1).nextState.harnesses.map (fun h => h.id)) ∧
    (applySelection render reg projectRoot registryRoot
        (applySelection render reg projectRoot registryRoot state dSkills dHarnesses
          t1).nextState dSkills dHarnesses t2).nextState =
      { (applySelection render reg projectRoot registryRoot state dSkills dHarnesses
          t1).nextState with updatedAt := t2 } := by
  refine ⟨rfl, ?_, rfl, rfl⟩
  show staleTargets _ _ = []
  exact staleTargets_self _

/-- **C4** — Target-set totality and fixed members: membership in the
(total, filesystem-independent) target-set function is exactly "a
declared `output.target` of a selected skill's or harness's manifest, or
one of the two always-present targets"; the empty selection yields
exactly the two always-present targets; and neither always-present
target is ever in the stale set of any transition. -/
theorem targetSet_total_and_fixed (skills : List SkillManifest)
    (harnesses : List HarnessManifest) (skillIds harnessIds : List String)
    (prevSkillIds prevHarnessIds nextSkillIds nextHarnessIds : List String) :
    (∀ t, t ∈ collectOutputTargets skills harnesses skillIds harnessIds ↔
      (∃ skillId ∈ skillIds, ∃ m, findSkill skills skillId = some m ∧
          ∃ o ∈ m.outputs, o.target = t) ∨
      (∃ harnessId ∈ harnessIds, ∃ m, findHarness harnesses harnessId = some m ∧
          ∃ o ∈ m.outputs, o.target = t) ∨
      t = "ai/agents.md" ∨ t = "ai/ai-manager.json") ∧
    collectOutputTargets skills harnesses [] [] = ["ai/agents.md", "ai/ai-manager.json"] ∧
    "ai/agents.md" ∈ collectOutputTargets skills harnesses skillIds harnessIds ∧
    "ai/ai-manager.json" ∈ collectOutputTargets skills harnesses skillIds harnessIds ∧
    ¬ "ai/agents.md" ∈ staleTargets
      (collectOutputTargets skills harnesses prevSkillIds prevHarnessIds)
      (collectOutputTargets skills harnesses nextSkillIds nextHarnessIds) ∧
    ¬ "ai/ai-manager.json" ∈ staleTargets
      (collectOutputTargets skills harnesses prevSkillIds prevHarnessIds)
      (collectOutputTargets skills harnesses nextSkillIds nextHarnessIds) := by
  refine ⟨fun t => mem_collectOutputTargets t skills harnesses skillIds harnessIds,
    rfl, (agents_mem_collectOutputTargets skills harnesses skillIds harnessIds).1,
    (agents_mem_collectOutputTargets skills harnesses skillIds harnessIds).2, ?_, ?_⟩
  · intro h
    exact ((mem_staleTargets _ _ _).mp h).2
      (agents_mem_collectOutputTargets skills harnesses nextSkillIds nextHarnessIds).1
  · intro h
    exact ((mem_staleTargets _ _ _).mp h).2
      (agents_mem_collectOutputTargets skills harnesses nextSkillIds nextHarnessIds).2

/-- **C6** — Registry uniqueness: when either loaded manifest list has
two entries sharing an id, `loadRegistry` fails with a validation error
and returns no registry; when both id lists are duplicate-free, it
returns a registry whose lists are permutations of the loaded manifests
sorted by id. -/
theorem loadRegistry_uniqueness (rawSkills : List SkillManifest)
    (rawHarnesses : List HarnessManifest) :
    ((¬ (rawSkills.map (fun s => s.id)).Nodup ∨
        ¬ (rawHarnesses.map (fun h => h.id)).Nodup) →
      ∃ e, loadRegistry rawSkills rawHarnesses = Except.error e) ∧
    ((rawSkills.map (fun s => s.id)).Nodup →
      (rawHarnesses.map (fun h => h.id)).Nodup →
      ∃ reg, loadRegistry rawSkills rawHarnesses = Except.ok reg ∧
        List.Perm reg.skills rawSkills ∧
        List.Pairwise (fun a b : SkillManifest => a.id ≤ b.id) reg.skills ∧
        List.Perm reg.harnesses rawHarnesses ∧
        List.Pairwise (fun a b : HarnessManifest => a.id ≤ b.id) reg.harnesses) := by
  have hps : List.Perm ((sortByKey (fun s => s.id) rawSkills).map (fun s => s.id))
      (rawSkills.map (fun s => s.id)) :=
    (perm_sortByKey (fun s => s.id) rawSkills).map (fun s => s.id)
  have hph : List.Perm ((sortByKey (fun h => h.id) rawHarnesses).map (fun h => h.id))
      (rawHarnesses.map (fun h => h.id)) :=
    (perm_sortByKey (fun h => h.id) rawHarnesses).map (fun h => h.id)
  by_cases hs : ((sortByKey (fun s => s.id) rawSkills).map (fun s => s.id)).Nodup
  · by_cases hh : ((sortByKey (fun h => h.id) rawHarnesses).map (fun h => h.id)).Nodup
    · have hok : loadRegistry rawSkills rawHarnesses = Except.ok
          { skills := sortByKey (fun s => s.id) rawSkills
            harnesses := sortByKey (fun h => h.id) rawHarnesses } := by
        simp only [loadRegistry, assertValidRegistryIds]
        rw [if_pos hs, if_pos hh]
      constructor
      · rintro (hdup | hdup)
        · exact absurd (hps.nodup_iff.mp hs) hdup
        · exact absurd (hph.nodup_iff.mp hh) hdup
      · intro h1 h2
        exact ⟨_, hok, perm_sortByKey _ _, sorted_sortByKey _ _,
          perm_sortByKey _ _, sorted_sortByKey _ _⟩
    · have he : loadRegistry rawSkills rawHarnesses =
          Except.error RegistryError.duplicateHarnessIds := by
        simp only [loadRegistry, assertValidRegistryIds]
        rw [if_pos hs, if_neg hh]
      constructor
      · intro _
        exact ⟨_, he⟩
      · intro h1 h2
        exact absurd (hph.nodup_iff.mpr h2) hh
  · have he : loadRegistry rawSkills rawHarnesses =
        Except.error RegistryError.duplicateSkillIds := by
      simp only [loadRegistry, assertValidRegistryIds]
      rw [if_neg hs]
    constructor
    · intro _
      exact ⟨_, he⟩
    · intro h1 h2
      exact absurd (hps.nodup_iff.mpr h1) hs

/-- **C6 witness** — concretely: two skills sharing the id `s1` makes
`loadRegistry` fail; a registry with two distinct skill ids loads, with
the skill list sorted by id. -/
theorem loadRegistry_uniqueness_witness :
    (∃ e, loadRegistry [mkSkill "s1" "a.md", mkSkill "s1" "b.md"] [] = Except.error e) ∧
    (∃ reg, loadRegistry [mkSkill "s2" "b.md", mkSkill "s1" "a.md"] [] = Except.ok reg ∧
      List.Perm reg.skills [mkSkill "s2" "b.md", mkSkill "s1" "a.md"] ∧
      List.Pairwise (fun a b : SkillManifest => a.id ≤ b.id) reg.skills ∧
      List.Perm reg.harnesses [] ∧
      List.Pairwise (fun a b : HarnessManifest => a.id ≤ b.id) reg.harnesses) := by
  constructor
  · exact (loadRegistry_uniqueness [mkSkill "s1" "a.md", mkSkill "s1" "b.md"] []).1
      (Or.inl (by decide))
  · exact (loadRegistry_uniqueness [mkSkill "s2" "b.md", mkSkill "s1" "a.md"] []).2
      (by decide) (by decide)

theorem getFile_writeFileAlways_same (fs : FS) (t c : String) (b : BackupOptions) :
    getFile (writeFileAlways fs t c b) t = some c := by
  unfold writeFileAlways
  exact getFile_setFile_same _ t c

/-- A constant state serialiser, standing in for `JSON.stringify` in
concrete witnesses. -/
def constEncode : ManagerState → String := fun _ => "state-json"

/-- **C7** — Init refusal: whenever both `ai/agents.md` and
`ai/ai-manager.json` exist under the project root, the `init` command is
refused: it returns the filesystem unchanged (no writes, removals or
state changes) and reports that it did not proceed. -/
theorem init_refused_when_inited (render : String → Ctx → String)
    (encodeState : ManagerState → String) (reg : Registry)
    (projectRoot registryRoot : String) (selectedSkills : List SelectedSkill)
    (selectedHarnessIds : List String) (facts : Option Facts) (now ts : String)
    (enableBackup : Bool) (fs : FS)
    (h1 : pathExistsF fs (pathJoin (pathJoin projectRoot "ai") "agents.md") = true)
    (h2 : pathExistsF fs (pathJoin (pathJoin projectRoot "ai") "ai-manager.json") = true) :
    initCommand render encodeState reg projectRoot registryRoot selectedSkills
      selectedHarnessIds facts now ts enableBackup fs = (fs, false) := by
  unfold initCommand
  rw [if_pos]
  unfold isInitedF
  rw [h1, h2]
  rfl

/-- **C7 witness** — a project showing both marker files refuses `init`
and is left untouched. -/
theorem init_refused_when_inited_witness :
    initCommand constRender constEncode sampleRegistry "/p" "/r" [] [] none
      "2024-01-02T00:00:00.000Z" "2024-01-02T00:00:00.000Z" false
      [("/p/ai/agents.md", "A"), ("/p/ai/ai-manager.json", "S")] =
    ([("/p/ai/agents.md", "A"), ("/p/ai/ai-manager.json", "S")], false) :=
  init_refused_when_inited constRender constEncode sampleRegistry "/p" "/r" [] [] none
    "2024-01-02T00:00:00.000Z" "2024-01-02T00:00:00.000Z" false
    [("/p/ai/agents.md", "A"), ("/p/ai/ai-manager.json", "S")] (by decide) (by decide)

/-- **C10** — Partial-marker init: when exactly one of the two marker
files exists, `isInited` is false, the `init` command proceeds, and it
overwrites `ai/ai-manager.json` with the serialisation of a fresh state
whose `createdAt` (and `updatedAt`) is the current time — regardless of
what the old state file contained. -/
theorem init_partial_marker_proceeds (render : String → Ctx → String)
    (encodeState : ManagerState → String) (reg : Registry)
    (projectRoot registryRoot : String) (selectedSkills : List SelectedSkill)
    (selectedHarnessIds : List String) (facts : Option Facts) (now ts : String)
    (enableBackup : Bool) (fs : FS)
    (h : pathExistsF fs (pathJoin (pathJoin projectRoot "ai") "agents.md") ≠
      pathExistsF fs (pathJoin (pathJoin projectRoot "ai") "ai-manager.json")) :
    isInitedF fs projectRoot = false ∧
    (initCommand render encodeState reg projectRoot registryRoot selectedSkills
      selectedHarnessIds facts now ts enableBackup fs).2 = true ∧
    getFile (initCommand render encodeState reg projectRoot registryRoot selectedSkills
        selectedHarnessIds facts now ts enableBackup fs).1
        (pathJoin (pathJoin projectRoot "ai") "ai-manager.json") =
      some (encodeState (initialState projectRoot now facts selectedSkills
        (mkSelectedHarnesses reg.harnesses selectedHarnessIds))) ∧
    (initialState projectRoot now facts selectedSkills
      (mkSelectedHarnesses reg.harnesses selectedHarnessIds)).createdAt = now := by
  have hini : isInitedF fs projectRoot = false := by
    unfold isInitedF
    cases ha : pathExistsF fs (pathJoin (pathJoin projectRoot "ai") "agents.md") with
    | false => rfl
    | true =>
      cases hb : pathExistsF fs (pathJoin (pathJoin projectRoot "ai") "ai-manager.json") with
      | false => rfl
      | true => exact absurd (ha.trans hb.symm) h
  refine ⟨hini, ?_, ?_, rfl⟩
  · unfold initCommand
    rw [if_neg (by rw [hini]; exact Bool.false_ne_true)]
  · unfold initCommand
    rw [if_neg (by rw [hini]; exact Bool.false_ne_true)]
    unfold runInitF
    exact getFile_writeFileAlways_same _ _ _ _

/-- **C10 witness** — with only the state file present (the aggregate
document was deleted by hand), `init` proceeds and resets the persisted
state to a fresh one with the current `createdAt`. -/
theorem init_partial_marker_proceeds_witness :
    isInitedF [("/p/ai/ai-manager.json", "OLD")] "/p" = false ∧
    (initCommand constRender constEncode sampleRegistry "/p" "/r" [] [] none
      "2026-01-01T00:00:00.000Z" "2026-01-01T00:00:00.000Z" false
      [("/p/ai/ai-manager.json", "OLD")]).2 = true ∧
    getFile (initCommand constRender constEncode sampleRegistry "/p" "/r" [] [] none
        "2026-01-01T00:00:00.000Z" "2026-01-01T00:00:00.000Z" false
        [("/p/ai/ai-manager.json", "OLD")]).1 "/p/ai/ai-manager.json" =
      some (constEncode (initialState "/p" "2026-01-01T00:00:00.000Z" none [] [])) ∧
    (initialState "/p" "2026-01-01T00:00:00.000Z" none [] []).createdAt =
      "2026-01-01T00:00:00.000Z" :=
  init_partial_marker_proceeds constRender constEncode sampleRegistry "/p" "/r" [] [] none
    "2026-01-01T00:00:00.000Z" "2026-01-01T00:00:00.000Z" false
    [("/p/ai/ai-manager.json", "OLD")] (by decide)

/-- **C5** — Backup correctness: with backups enabled (and a backup root
set), both overwriting (`writeFileAlways`) and the pre-removal backup
(`backupExistingFile`) of an existing target first place a byte-identical
copy of its current contents at the computed backup path; with backups
disabled, a write is a plain overwrite of the target, a pre-removal
backup changes nothing, and no path other than the target is touched —
in particular no backup file is created. -/
theorem backup_correctness (fs : FS) (target contents root old : String)
    (b : BackupOptions) :
    (getFile fs target = some old →
      resolveBackupPath target root ≠ target →
      getFile (writeFileAlways fs target contents
          { enabled := true, backupRoot := some root })
        (resolveBackupPath target root) = some old) ∧
    (getFile fs target = some old →
      getFile (backupExistingFile fs target { enabled := true, backupRoot := some root })
        (resolveBackupPath target root) = some old) ∧
    (b.enabled = false →
      writeFileAlways fs target contents b = setFile fs target contents ∧
      backupExistingFile fs target b = fs ∧
      ∀ p, p ≠ target → getFile (writeFileAlways fs target contents b) p = getFile fs p) := by
  refine ⟨?_, ?_, ?_⟩
  · intro hold hne
    unfold writeFileAlways
    rw [hold]
    rw [getFile_setFile_other _ target contents _ (Ne.symm hne)]
    exact getFile_setFile_same _ _ _
  · intro hold
    unfold backupExistingFile
    rw [hold]
    exact getFile_setFile_same _ _ _
  · intro hen
    obtain ⟨en, br⟩ := b
    cases hen
    have hw : writeFileAlways fs target contents { enabled := false, backupRoot := br } =
        setFile fs target contents := by
      unfold writeFileAlways
      cases getFile fs target <;> cases br <;> rfl
    refine ⟨hw, ?_, ?_⟩
    · unfold backupExistingFile
      cases br <;> rfl
    · intro p hp
      rw [hw]
      exact getFile_setFile_other fs target contents p (fun h => hp h.symm)

/-- **C5 witness** — at a concrete file: with backups on, the old bytes
appear at the computed backup path before the overwrite or removal; with
backups off, the write is a plain overwrite, the pre-removal backup is a
no-op, and the would-be backup path is untouched. -/
theorem backup_correctness_witness :
    getFile (writeFileAlways [("/p/ai/agents.md", "OLD")] "/p/ai/agents.md" "NEW"
        { enabled := true, backupRoot := some "/p/ai/.backups/T" })
      (resolveBackupPath "/p/ai/agents.md" "/p/ai/.backups/T") = some "OLD" ∧
    getFile (backupExistingFile [("/p/ai/agents.md", "OLD")] "/p/ai/agents.md"
        { enabled := true, backupRoot := some "/p/ai/.backups/T" })
      (resolveBackupPath "/p/ai/agents.md" "/p/ai/.backups/T") = some "OLD" ∧
    writeFileAlways [("/p/ai/agents.md", "OLD")] "/p/ai/agents.md" "NEW"
        { enabled := false, backupRoot := none } =
      setFile [("/p/ai/agents.md", "OLD")] "/p/ai/agents.md" "NEW" ∧
    backupExistingFile [("/p/ai/agents.md", "OLD")] "/p/ai/agents.md"
        { enabled := false, backupRoot := none } = [("/p/ai/agents.md", "OLD")] ∧
    getFile (writeFileAlways [("/p/ai/agents.md", "OLD")] "/p/ai/agents.md" "NEW"
        { enabled := false, backupRoot := none })
      (resolveBackupPath "/p/ai/agents.md" "/p/ai/.backups/T") =
      getFile [("/p/ai/agents.md", "OLD")]
        (resolveBackupPath "/p/ai/agents.md" "/p/ai/.backups/T") := by
  have h := backup_correctness [("/p/ai/agents.md", "OLD")] "/p/ai/agents.md" "NEW"
    "/p/ai/.backups/T" "OLD" { enabled := false, backupRoot := none }
  have h3 := h.2.2 rfl
  exact ⟨h.1 (by decide) (by decide), h.2.1 (by decide), h3.1, h3.2.1,
    h3.2.2 (resolveBackupPath "/p/ai/agents.md" "/p/ai/.backups/T") (by decide)⟩

/-- **C2 counterexample** — the claim's backup location is wrong on two
counts, shown at `projectRoot = "/p"`, target `ai/agents.md`, timestamp
`2024-01-02T03:04:05.678Z`: the code replaces the `.` of the ISO
timestamp as well as the colons, and it strips only the leading `/` from
the absolute target path, so the backup lands under
`.../T/p/ai/agents.md` (mirroring the filesystem-root-relative path),
not under `.../T/ai/agents.md` (the project-relative path the claim
states). -/
theorem backup_location_counterexample :
    (buildBackupOptions "/p" true "2024-01-02T03:04:05.678Z").backupRoot =
      some "/p/ai/.backups/2024-01-02T03-04-05-678Z" ∧
    resolveBackupPath (pathJoin "/p" "ai/agents.md")
        "/p/ai/.backups/2024-01-02T03-04-05-678Z" =
      "/p/ai/.backups/2024-01-02T03-04-05-678Z/p/ai/agents.md" ∧
    resolveBackupPath (pathJoin "/p" "ai/agents.md")
        "/p/ai/.backups/2024-01-02T03-04-05-678Z" ≠
      "/p/ai/.backups/2024-01-02T03-04-05-678Z/ai/agents.md" ∧
    resolveBackupPath (pathJoin "/p" "ai/agents.md")
        "/p/ai/.backups/2024-01-02T03-04-05-678Z" ≠
      "/p/ai/.backups/2024-01-02T03-04-05.678Z/ai/agents.md" ∧
    getFile (backupExistingFile [("/p/ai/agents.md", "OLD")] (pathJoin "/p" "ai/agents.md")
        (buildBackupOptions "/p" true "2024-01-02T03:04:05.678Z"))
      "/p/ai/.backups/2024-01-02T03-04-05-678Z/ai/agents.md" = none ∧
    getFile (backupExistingFile [("/p/ai/agents.md", "OLD")] (pathJoin "/p" "ai/agents.md")
        (buildBackupOptions "/p" true "2024-01-02T03:04:05.678Z"))
      "/p/ai/.backups/2024-01-02T03-04-05.678Z/ai/agents.md" = none ∧
    getFile (backupExistingFile [("/p/ai/agents.md", "OLD")] (pathJoin "/p" "ai/agents.md")
        (buildBackupOptions "/p" true "2024-01-02T03:04:05.678Z"))
      "/p/ai/.backups/2024-01-02T03-04-05-678Z/p/ai/agents.md" = some "OLD" := by
  refine ⟨?_, ?_, ?_, ?_, ?_, ?_, ?_⟩ <;> decide

/-- **C2 amended** — Backup location, as the code computes it: with
backups enabled, the backup root is
`<projectRoot>/ai/.backups/<ISO timestamp with every ':' and '.'
replaced by '-'>`, and the backup copy of a target is placed at that
root joined with the target's absolute path minus its leading `/` —
i.e. at `<backupRoot>/<projectRoot minus its leading '/'>/<project-
relative target>`, mirroring the filesystem-root-relative tree (it
coincides with the claim's project-relative mirror only when the project
root is the filesystem root). -/
theorem backup_location_amended (projectRoot target ts : String) (fs : FS) (old : String)
    (h1 : headIsSlash projectRoot.data = true)
    (h2 : ¬ stripRoot projectRoot = "")
    (h3 : ¬ target = "") :
    ∀ root, (buildBackupOptions projectRoot true ts).backupRoot = some root →
      (resolveBackupPath (pathJoin projectRoot target) root =
        pathJoin root (pathJoin (stripRoot projectRoot) target) ∧
       (getFile fs (pathJoin projectRoot target) = some old →
        getFile (backupExistingFile fs (pathJoin projectRoot target)
            (buildBackupOptions projectRoot true ts))
          (pathJoin root (pathJoin (stripRoot projectRoot) target)) = some old)) := by
  intro root hroot
  have hPne : ¬ projectRoot = "" := by
    intro h
    rw [h] at h1
    exact Bool.false_ne_true h1
  obtain ⟨c, rest, hdata⟩ : ∃ c rest, projectRoot.data = c :: rest := by
    cases hd : projectRoot.data with
    | nil => rw [hd] at h1; exact absurd h1 Bool.false_ne_true
    | cons c rest => exact ⟨c, rest, rfl⟩
  have hc : c = '/' := by
    rw [hdata] at h1
    exact of_decide_eq_true h1
  have hjoin : pathJoin projectRoot target = String.mk (projectRoot.data ++ '/' :: target.data) := by
    unfold pathJoin
    rw [if_neg hPne, if_neg h3]
  have hstrip : stripRoot (pathJoin projectRoot target) =
      pathJoin (stripRoot projectRoot) target := by
    rw [hjoin]
    unfold pathJoin
    rw [if_neg h2, if_neg h3]
    unfold stripRoot
    rw [hdata]
    rfl
  have habs : isAbsolutePath (pathJoin projectRoot target) = true := by
    rw [hjoin]
    unfold isAbsolutePath
    show headIsSlash (projectRoot.data ++ '/' :: target.data) = true
    rw [hdata, hc]
    rfl
  have hpath : resolveBackupPath (pathJoin projectRoot target) root =
      pathJoin root (pathJoin (stripRoot projectRoot) target) := by
    unfold resolveBackupPath
    rw [habs, if_pos rfl, hstrip]
  refine ⟨hpath, fun hold => ?_⟩
  have hb : buildBackupOptions projectRoot true ts =
      { enabled := true, backupRoot := some root } := by
    have hsplit : buildBackupOptions projectRoot true ts =
        { enabled := true,
          backupRoot := (buildBackupOptions projectRoot true ts).backupRoot } := rfl
    rw [hsplit, hroot]
  rw [hb]
  unfold backupExistingFile
  rw [hold]
  rw [← hpath]
  exact getFile_setFile_same _ _ _

/-- **C2 amended witness** — concretely at `projectRoot = "/p"`: the
backup of `/p/ai/agents.md` is placed at
`<backupRoot>/p/ai/agents.md`, and holds the old bytes. -/
theorem backup_location_amended_witness :
    resolveBackupPath (pathJoin "/p" "ai/agents.md")
        "/p/ai/.backups/2024-01-02T03-04-05-678Z" =
      pathJoin "/p/ai/.backups/2024-01-02T03-04-05-678Z"
        (pathJoin (stripRoot "/p") "ai/agents.md") ∧
    getFile (backupExistingFile [("/p/ai/agents.md", "OLD")] (pathJoin "/p" "ai/agents.md")
        (buildBackupOptions "/p" true "2024-01-02T03:04:05.678Z"))
      (pathJoin "/p/ai/.backups/2024-01-02T03-04-05-678Z"
        (pathJoin (stripRoot "/p") "ai/agents.md")) = some "OLD" := by
  have h := backup_location_amended "/p" "ai/agents.md" "2024-01-02T03:04:05.678Z"
    [("/p/ai/agents.md", "OLD")] "OLD" (by decide) (by decide) (by decide)
    "/p/ai/.backups/2024-01-02T03-04-05-678Z" (by decide)
  exact ⟨h.1, h.2 (by decide)⟩

theorem buildSkillIndexTable_eq_placeholder_iff (skills : List SkillManifest) :
    buildSkillIndexTable skills = "No skills selected." ↔ skills = [] := by
  cases skills with
  | nil => simp [buildSkillIndexTable]
  | cons s rest =>
    simp only [buildSkillIndexTable]
    constructor
    · intro h
      exfalso
      have hsplit : joinStrings "\n"
          ("| Id | Name | Description |" :: "| --- | --- | --- |" ::
            (s :: rest).map (fun s =>
              "| " ++ s.id ++ " | " ++ s.name ++ " | " ++ s.description ++ " |")) =
          "| Id | Name | Description |" ++ "\n" ++ joinStrings "\n"
            ("| --- | --- | --- |" :: (s :: rest).map (fun s =>
              "| " ++ s.id ++ " | " ++ s.name ++ " | " ++ s.description ++ " |")) := rfl
      rw [hsplit] at h
      have hlen := congrArg String.length h
      rw [String.length_append, String.length_append] at hlen
      have e1 : ("| Id | Name | Description |" : String).length = 27 := rfl
      have e2 : ("\n" : String).length = 1 := rfl
      have e3 : ("No skills selected." : String).length = 19 := rfl
      rw [e1, e2, e3] at hlen
      omega
    · intro h
      cases h

/-- An assembly input whose harness id list is the nonempty `["None"]`. -/
def noneHarnessInput : AgentsAssemblyInput :=
  { projectName := "p"
    harnesses := ["None"]
    skills := []
    selectedSkillIds := []
    skillAnswers := []
    registryRoot := "/r" }

/-- **C8 counterexample** — the "exactly when" in the claim fails for
`harnessNotes`: with the (nonempty) harness id list `["None"]`, the
bullet list the assembler builds is the literal `- None` even though the
harness list is not empty. -/
theorem agents_none_counterexample :
    (buildAgentsContext constRender noneHarnessInput).harnessNotes = "- None" ∧
    ¬ noneHarnessInput.harnesses = [] := by
  constructor
  · decide
  · decide

/-- **C8 amended** — Document-assembly shape: the index table passed to
the base template is the literal `No skills selected.` exactly when the
selected-skill list is empty; `harnessNotes` is the literal `- None`
when the harness list is empty and otherwise the `- <id>` bullet list
joined by newlines (which coincides with `- None` when the harness list
is exactly `["None"]`, so "exactly when empty" does not hold); and the
rendered guide-skill fragments are joined in the order of the input
skill list — the guide-skill list is a sublist of the input `skills`
list, not a reordering by completion or by the selected-id list. -/
theorem agents_assembly_shape (render : String → Ctx → String)
    (input : AgentsAssemblyInput) :
    ((buildAgentsContext render input).skillIndexTable = "No skills selected." ↔
      input.skills.filter (fun sk => memB sk.id input.selectedSkillIds) = []) ∧
    (buildAgentsContext render input).harnessNotes =
      (match input.harnesses with
       | [] => "- None"
       | hs => joinStrings "\n" (hs.map (fun h => "- " ++ h))) ∧
    (buildAgentsContext render input).skillGuides =
      joinStrings "\n\n"
        (((input.skills.filter (fun sk => memB sk.id input.selectedSkillIds)).filter
            (fun sk => ¬ sk.id = "planner")).map (fun sk =>
          render (snippetTemplatePath input.registryRoot sk)
            (Ctx.skill sk (lookupAnswers input.skillAnswers sk.id)))) ∧
    List.Sublist
      ((input.skills.filter (fun sk => memB sk.id input.selectedSkillIds)).filter
        (fun sk => ¬ sk.id = "planner"))
      input.skills := by
  refine ⟨buildSkillIndexTable_eq_placeholder_iff _, rfl, rfl, ?_⟩
  exact (List.filter_sublist _).trans (List.filter_sublist _)

/-! ## A selected id without a manifest is skipped everywhere -/

theorem lookupAnswers_append_ne (m : List (String × AnswerMap)) (x : String)
    (ans : AnswerMap) (q : String) (h : ¬ q = x) :
    lookupAnswers (m ++ [(x, ans)]) q = lookupAnswers m q := by
  unfold lookupAnswers
  rw [List.reverse_append]
  have hrev : ([(x, ans)] : List (String × AnswerMap)).reverse = [(x, ans)] := rfl
  rw [hrev]
  have hfind : List.find? (fun e => decide (e.1 = q)) ((x, ans) :: m.reverse) =
      List.find? (fun e => decide (e.1 = q)) m.reverse := by
    rw [List.find?_cons_of_neg]
    simp only [decide_eq_true_eq]
    exact fun hx => h hx.symm
  rw [show ([(x, ans)] : List (String × AnswerMap)) ++ m.reverse =
    (x, ans) :: m.reverse from rfl]
  rw [hfind]

theorem filter_selected_append (skills : List SkillManifest) (ids : List String)
    (x : String) (h : ∀ sk ∈ skills, ¬ sk.id = x) :
    skills.filter (fun sk => memB sk.id (ids ++ [x])) =
      skills.filter (fun sk => memB sk.id ids) := by
  apply List.filter_congr
  intro sk hsk
  rw [memB_append]
  have hx : memB sk.id [x] = false := by
    unfold memB
    rw [if_neg (fun hxe : x = sk.id => h sk hsk hxe.symm)]
    rfl
  rw [hx, Bool.or_false]

theorem buildAgentsContext_append_missing (render : String → Ctx → String)
    (pn : String) (hIds : List String) (skills : List SkillManifest)
    (ids : List String) (answers : List (String × AnswerMap)) (rr x : String)
    (ans : AnswerMap) (h : ∀ sk ∈ skills, ¬ sk.id = x) :
    buildAgentsContext render
      { projectName := pn, harnesses := hIds, skills := skills
        selectedSkillIds := ids ++ [x], skillAnswers := answers ++ [(x, ans)]
        registryRoot := rr } =
    buildAgentsContext render
      { projectName := pn, harnesses := hIds, skills := skills
        selectedSkillIds := ids, skillAnswers := answers, registryRoot := rr } := by
  unfold buildAgentsContext
  simp only
  rw [filter_selected_append skills ids x h]
  have hguides : ∀ l : List SkillManifest, (∀ sk ∈ l, sk ∈ skills) →
      l.map (fun sk => render (snippetTemplatePath rr sk)
        (Ctx.skill sk (lookupAnswers (answers ++ [(x, ans)]) sk.id))) =
      l.map (fun sk => render (snippetTemplatePath rr sk)
        (Ctx.skill sk (lookupAnswers answers sk.id))) := by
    intro l hl
    apply List.map_congr_left
    intro sk hsk
    rw [lookupAnswers_append_ne answers x ans sk.id (h sk (hl sk hsk))]
  have hact : ∀ l : List SkillManifest, (∀ sk ∈ l, sk ∈ skills) →
      l.map (fun sk => render (activationTemplatePath rr sk)
        (Ctx.skill sk (lookupAnswers (answers ++ [(x, ans)]) sk.id))) =
      l.map (fun sk => render (activationTemplatePath rr sk)
        (Ctx.skill sk (lookupAnswers answers sk.id))) := by
    intro l hl
    apply List.map_congr_left
    intro sk hsk
    rw [lookupAnswers_append_ne answers x ans sk.id (h sk (hl sk hsk))]
  rw [hguides _ (fun sk hsk =>
      List.mem_of_mem_filter (List.mem_of_mem_filter hsk)),
    hact _ (fun sk hsk =>
      List.mem_of_mem_filter (List.mem_of_mem_filter hsk))]

theorem buildAgentsMarkdown_append_missing (render : String → Ctx → String)
    (pn : String) (hIds : List String) (skills : List SkillManifest)
    (ids : List String) (answers : List (String × AnswerMap)) (rr x : String)
    (ans : AnswerMap) (h : ∀ sk ∈ skills, ¬ sk.id = x) :
    buildAgentsMarkdown render
      { projectName := pn, harnesses := hIds, skills := skills
        selectedSkillIds := ids ++ [x], skillAnswers := answers ++ [(x, ans)]
        registryRoot := rr } =
    buildAgentsMarkdown render
      { projectName := pn, harnesses := hIds, skills := skills
        selectedSkillIds := ids, skillAnswers := answers, registryRoot := rr } := by
  unfold buildAgentsMarkdown
  rw [buildAgentsContext_append_missing render pn hIds skills ids answers rr x ans h]

theorem renderAll_append_missing (render : String → Ctx → String)
    (projectRoot registryRoot : String) (skills : List SkillManifest)
    (harnesses : List HarnessManifest) (dSkills : List SelectedSkill)
    (dHarnesses : List SelectedHarness) (sMiss : SelectedSkill)
    (h : findSkill skills sMiss.id = none) :
    renderAll render projectRoot registryRoot skills harnesses (dSkills ++ [sMiss])
      dHarnesses =
    renderAll render projectRoot registryRoot skills harnesses dSkills dHarnesses := by
  have hne : ∀ sk ∈ skills, ¬ sk.id = sMiss.id := by
    intro sk hsk he
    have := List.find?_eq_none.mp h sk hsk
    simp only [decide_eq_true_eq] at this
    exact this he
  unfold renderAll
  simp only [List.map_append, List.map_cons, List.map_nil]
  rw [buildAgentsMarkdown_append_missing render (baseName projectRoot)
    (dHarnesses.map (fun h => h.id)) skills (dSkills.map (fun s => s.id))
    (dSkills.map (fun s => (s.id, s.answers))) registryRoot sMiss.id sMiss.answers hne]
  rw [List.flatten_append]
  have hmiss : ([match findSkill skills sMiss.id with
      | none => []
      | some m => m.outputs.map (fun o =>
          (pathJoin projectRoot o.target,
           render (pathJoin (pathJoin (pathJoin registryRoot "skills") m.id) o.template)
             (Ctx.skill m sMiss.answers)))] : List (List (String × String))).flatten = [] := by
    rw [h]
    rfl
  rw [hmiss, List.append_nil]

/-- A selected harness without a manifest contributes no writes of its
own: every write except the always-rendered aggregate agents document
is unchanged (the document's harness-note input does list the id, so
only that one write's contents may differ), and the list of written
paths is unchanged. -/
theorem renderAll_append_missing_harness (render : String → Ctx → String)
    (projectRoot registryRoot : String) (skills : List SkillManifest)
    (harnesses : List HarnessManifest) (dSkills : List SelectedSkill)
    (dHarnesses : List SelectedHarness) (hMiss : SelectedHarness)
    (h : findHarness harnesses hMiss.id = none) :
    (renderAll render projectRoot registryRoot skills harnesses dSkills
      (dHarnesses ++ [hMiss])).tail =
      (renderAll render projectRoot registryRoot skills harnesses dSkills
        dHarnesses).tail ∧
    (renderAll render projectRoot registryRoot skills harnesses dSkills
      (dHarnesses ++ [hMiss])).map Prod.fst =
      (renderAll render projectRoot registryRoot skills harnesses dSkills
        dHarnesses).map Prod.fst := by
  constructor
  · unfold renderAll
    simp only [List.map_append, List.map_cons, List.map_nil, List.flatten_append, h,
      List.flatten_cons, List.flatten_nil, List.append_nil]
    rfl
  · unfold renderAll
    simp only [List.map_append, List.map_cons, List.map_nil, List.flatten_append, h,
      List.flatten_cons, List.flatten_nil, List.append_nil]

/-- **C9** — Missing-manifest skip: a selected skill or harness id that
has no manifest in the loaded registry is skipped without error
everywhere in the reconciliation (all the modelled functions are
total).  A manifest-less skill id contributes no paths to the target
set, no rendered outputs (`renderAll` is unchanged by its presence),
triggers no removal, and remains untouched in the persisted selection.
A manifest-less harness id likewise contributes no paths to the target
set and no rendered outputs of its own — the list of written paths and
every write except the always-rendered aggregate agents document are
unchanged (that document's harness-note input does list the id) —
triggers no removal, and remains untouched in the persisted
selection. -/
theorem missing_manifest_skip (render : String → Ctx → String) (reg : Registry)
    (projectRoot registryRoot : String) (state : ManagerState)
    (dSkills : List SelectedSkill) (dHarnesses : List SelectedHarness)
    (sMiss : SelectedSkill) (hMiss : SelectedHarness) (now : String)
    (h : findSkill reg.skills sMiss.id = none)
    (h2 : findHarness reg.harnesses hMiss.id = none) :
    collectOutputTargets reg.skills reg.harnesses
        ((dSkills ++ [sMiss]).map (fun s => s.id)) (dHarnesses.map (fun h => h.id)) =
      collectOutputTargets reg.skills reg.harnesses
        (dSkills.map (fun s => s.id)) (dHarnesses.map (fun h => h.id)) ∧
    renderAll render projectRoot registryRoot reg.skills reg.harnesses
        (dSkills ++ [sMiss]) dHarnesses =
      renderAll render projectRoot registryRoot reg.skills reg.harnesses
        dSkills dHarnesses ∧
    (applySelection render reg projectRoot registryRoot state (dSkills ++ [sMiss])
        dHarnesses now).removals =
      (applySelection render reg projectRoot registryRoot state dSkills
        dHarnesses now).removals ∧
    (applySelection render reg projectRoot registryRoot state (dSkills ++ [sMiss])
        dHarnesses now).nextState.skills = dSkills ++ [sMiss] ∧
    collectOutputTargets reg.skills reg.harnesses
        (dSkills.map (fun s => s.id)) ((dHarnesses ++ [hMiss]).map (fun h => h.id)) =
      collectOutputTargets reg.skills reg.harnesses
        (dSkills.map (fun s => s.id)) (dHarnesses.map (fun h => h.id)) ∧
    (renderAll render projectRoot registryRoot reg.skills reg.harnesses
        dSkills (dHarnesses ++ [hMiss])).tail =
      (renderAll render projectRoot registryRoot reg.skills reg.harnesses
        dSkills dHarnesses).tail ∧
    (renderAll render projectRoot registryRoot reg.skills reg.harnesses
        dSkills (dHarnesses ++ [hMiss])).map Prod.fst =
      (renderAll render projectRoot registryRoot reg.skills reg.harnesses
        dSkills dHarnesses).map Prod.fst ∧
    (applySelection render reg projectRoot registryRoot state dSkills
        (dHarnesses ++ [hMiss]) now).removals =
      (applySelection render reg projectRoot registryRoot state dSkills
        dHarnesses now).removals ∧
    (applySelection render reg projectRoot registryRoot state dSkills
        (dHarnesses ++ [hMiss]) now).nextState.harnesses = dHarnesses ++ [hMiss] := by
  have hcollect : collectOutputTargets reg.skills reg.harnesses
      ((dSkills ++ [sMiss]).map (fun s => s.id)) (dHarnesses.map (fun h => h.id)) =
      collectOutputTargets reg.skills reg.harnesses
      (dSkills.map (fun s => s.id)) (dHarnesses.map (fun h => h.id)) := by
    rw [List.map_append]
    unfold collectOutputTargets
    rw [List.foldl_append]
    simp only [List.map_cons, List.map_nil, List.foldl_cons, List.foldl_nil, h]
  have hcollectH : collectOutputTargets reg.skills reg.harnesses
      (dSkills.map (fun s => s.id)) ((dHarnesses ++ [hMiss]).map (fun h => h.id)) =
      collectOutputTargets reg.skills reg.harnesses
      (dSkills.map (fun s => s.id)) (dHarnesses.map (fun h => h.id)) := by
    rw [List.map_append]
    simp only [collectOutputTargets, List.foldl_append, List.map_cons, List.map_nil,
      List.foldl_cons, List.foldl_nil, h2]
  obtain ⟨htail, hfst⟩ := renderAll_append_missing_harness render projectRoot registryRoot
    reg.skills reg.harnesses dSkills dHarnesses hMiss h2
  refine ⟨hcollect, renderAll_append_missing render projectRoot registryRoot reg.skills
    reg.harnesses dSkills dHarnesses sMiss h, ?_, rfl, hcollectH, htail, hfst, ?_, rfl⟩
  · show staleTargets _ _ = staleTargets _ _
    rw [hcollect]
  · show staleTargets _ _ = staleTargets _ _
    rw [hcollectH]

/-- The selected-skill entry with no manifest, used by the C9 witness. -/
def ghostSkill : SelectedSkill := { id := "ghost", version := "1", answers := [] }

/-- The selected-harness entry with no manifest, used by the C9 witness. -/
def ghostHarness : SelectedHarness := { id := "ghosth", version := "1" }

/-- **C9 witness** — concretely: selecting the skill id `ghost` or the
harness id `ghosth`, neither of which has a manifest in the sample
registry, changes neither the target set, nor the written paths, nor
the removals (for the skill, not even the writes; for the harness, no
write except possibly the aggregate document's contents), and both ids
stay in the persisted selection. -/
theorem missing_manifest_skip_witness :
    collectOutputTargets sampleRegistry.skills sampleRegistry.harnesses
        ((([] : List SelectedSkill) ++ [ghostSkill]).map (fun s => s.id))
        (([] : List SelectedHarness).map (fun h => h.id)) =
      collectOutputTargets sampleRegistry.skills sampleRegistry.harnesses
        (([] : List SelectedSkill).map (fun s => s.id))
        (([] : List SelectedHarness).map (fun h => h.id)) ∧
    renderAll constRender "/p" "/r" sampleRegistry.skills sampleRegistry.harnesses
        (([] : List SelectedSkill) ++ [ghostSkill]) [] =
      renderAll constRender "/p" "/r" sampleRegistry.skills sampleRegistry.harnesses
        [] [] ∧
    (applySelection constRender sampleRegistry "/p" "/r" sampleState
        (([] : List SelectedSkill) ++ [ghostSkill]) [] "now").removals =
      (applySelection constRender sampleRegistry "/p" "/r" sampleState [] []
        "now").removals ∧
    (applySelection constRender sampleRegistry "/p" "/r" sampleState
        (([] : List SelectedSkill) ++ [ghostSkill]) [] "now").nextState.skills =
      ([] : List SelectedSkill) ++ [ghostSkill] ∧
    collectOutputTargets sampleRegistry.skills sampleRegistry.harnesses
        (([] : List SelectedSkill).map (fun s => s.id))
        ((([] : List SelectedHarness) ++ [ghostHarness]).map (fun h => h.id)) =
      collectOutputTargets sampleRegistry.skills sampleRegistry.harnesses
        (([] : List SelectedSkill).map (fun s => s.id))
        (([] : List SelectedHarness).map (fun h => h.id)) ∧
    (renderAll constRender "/p" "/r" sampleRegistry.skills sampleRegistry.harnesses
        [] (([] : List SelectedHarness) ++ [ghostHarness])).tail =
      (renderAll constRender "/p" "/r" sampleRegistry.skills sampleRegistry.harnesses
        [] []).tail ∧
    (renderAll constRender "/p" "/r" sampleRegistry.skills sampleRegistry.harnesses
        [] (([] : List SelectedHarness) ++ [ghostHarness])).map Prod.fst =
      (renderAll constRender "/p" "/r" sampleRegistry.skills sampleRegistry.harnesses
        [] []).map Prod.fst ∧
    (applySelection constRender sampleRegistry "/p" "/r" sampleState []
        (([] : List SelectedHarness) ++ [ghostHarness]) "now").removals =
      (applySelection constRender sampleRegistry "/p" "/r" sampleState [] []
        "now").removals ∧
    (applySelection constRender sampleRegistry "/p" "/r" sampleState []
        (([] : List SelectedHarness) ++ [ghostHarness]) "now").nextState.harnesses =
      ([] : List SelectedHarness) ++ [ghostHarness] :=
  missing_manifest_skip constRender sampleRegistry "/p" "/r" sampleState []
    [] ghostSkill ghostHarness "now" (by decide) (by decide)

end AiManager
